import Mathlib

/-!
# Closed-form polynomial root solvers of `atlas/math/Solvers.hpp`

A shallow embedding of `solveQuadric`, `solveCubic` and `solveQuartic`.

* The scalar type `GenType` is a linearly ordered field `α`; the functions the
  solvers take from the math headers (`sqrt`, `cbrt`, `acos`, `cos`, `pi`,
  `isZero`) are the fields of a `Scalar α`, so the solvers themselves are
  executable definitions, generic in the scalar exactly as the templates are.
* A `std::vector` is a `List α`; indexing is bounds-checked and returns
  `Option`, so every solver returns `Option (count × roots buffer after the call)`.
* The real-number reading of the arithmetic is the instance `realScalar eps`.
-/

namespace atlas

variable {α : Type} [LinearOrderedField α]

/-- The scalar operations the solvers use but do not define: `sqrt`, `cbrt`,
`acos`, `cos` (cmath / glm), `pi<GenType>()` (Constants.hpp) and
`isZero<GenType>` (Float.hpp). -/
structure Scalar (α : Type) where
  sqrt : α → α
  cbrt : α → α
  acos : α → α
  cos : α → α
  pi : α
  isZero : α → Bool

/-- Read `v[i]`; `none` when `i` is out of bounds. -/
def rd {β : Type} (v : List β) (i : Nat) : Option β := v[i]?

/-- Write `v[i] = x`; `none` when `i` is out of bounds. -/
def wr {β : Type} (v : List β) (i : Nat) (x : β) : Option (List β) :=
  if i < v.length then some (v.set i x) else none

/-- Value of the polynomial with coefficients `coeffs`, lowest degree first
(the `Polynomial` of the data model). -/
def evalPoly (coeffs : List α) (x : α) : α :=
  coeffs.foldr (fun c acc => c + x * acc) 0

/-- Solvers.hpp lines 15-42. -/
def solveQuadric (S : Scalar α) (coeffs roots : List α) : Option (Nat × List α) := do
  -- Quadratic: x^2 + px + q = 0
  let c1 ← rd coeffs 1
  let c2 ← rd coeffs 2
  let p := c1 / (2 * c2)
  let c0 ← rd coeffs 0
  let q := c0 / c2
  let D := p * p - q
  if S.isZero D then
    let roots ← wr roots 0 (-p)
    pure (1, roots)
  else if D > 0 then
    let sqrtD := S.sqrt D
    let roots ← wr roots 0 (sqrtD - p)
    let roots ← wr roots 1 (-sqrtD - p)
    pure (2, roots)
  else
    pure (0, roots)

/-- The loop `for (int i = 0; i < num; ++i) roots[i] -= sub;`, entered at index
`i` with `n` iterations left (`n = num - i`). -/
def resubstitute (sub : α) : Nat → Nat → List α → Option (List α)
  | 0, _, roots => some roots
  | n + 1, i, roots => do
    let x ← rd roots i
    let roots ← wr roots i (x - sub)
    resubstitute sub n (i + 1) roots

/-- Solvers.hpp lines 63-64: `p` of `solveCubic`. -/
def cubicP (A B : α) : α := 1 / 3 * ((-1) / 3 * (A * A) + B)

/-- Solvers.hpp lines 65-67: `q` of `solveCubic`. -/
def cubicQ (A B C : α) : α := 1 / 3 * (2 / 27 * A * (A * A) - 1 / 3 * A * B + C)

/-- Solvers.hpp lines 44-124. -/
def solveCubic (S : Scalar α) (coeffs roots : List α) : Option (Nat × List α) := do
  -- Cubic: x^3 + Ax^2 + Bx + C = 0
  let c2 ← rd coeffs 2
  let c3 ← rd coeffs 3
  let A := c2 / c3
  let c1 ← rd coeffs 1
  let B := c1 / c3
  let c0 ← rd coeffs 0
  let C := c0 / c3
  let p := cubicP A B
  let q := cubicQ A B C
  -- Use Cardano's formula.
  let cbP := p * p * p
  let D := q * q + cbP
  let (num, roots) ←
    (if S.isZero D then
      if S.isZero q then do
        -- Multiplicity 3.
        let roots ← wr roots 0 0
        pure (1, roots)
      else do
        -- Multiplicity 2 and 1.
        let u := S.cbrt (-q)
        let roots ← wr roots 0 (2 * u)
        let roots ← wr roots 1 (-u)
        pure (2, roots)
    else if D < 0 then do
      -- Multiplicity 1 all.
      let phi := 1 / 3 * S.acos (-q / S.sqrt (-cbP))
      let t := 2 * S.sqrt (-p)
      let roots ← wr roots 0 (t * S.cos phi)
      let roots ← wr roots 1 (-t * S.cos (phi + S.pi / 3))
      let roots ← wr roots 2 (-t * S.cos (phi - S.pi / 3))
      pure (3, roots)
    else do
      -- One real solution.
      let sqrtD := S.sqrt D
      let u := S.cbrt (sqrtD - q)
      let v := -S.cbrt (sqrtD + q)
      let roots ← wr roots 0 (u + v)
      pure (1, roots) : Option (Nat × List α))
  -- Resubstitute.
  let sub := 1 / 3 * A
  let roots ← resubstitute sub num 0 roots
  pure (num, roots)

/-- Solvers.hpp line 146: `p` of `solveQuartic`. -/
def quarticP (A B : α) : α := 3 / 8 * (A * A) + B

/-- Solvers.hpp lines 147-148: `q` of `solveQuartic`. -/
def quarticQ (A B C : α) : α := 1 / 8 * (A * A) * A - 1 / 2 * A * B + C

/-- Solvers.hpp lines 149-150: `r` of `solveQuartic`. -/
def quarticR (A B C D : α) : α :=
  (-3) / 256 * (A * A) * (A * A) + 1 / 16 * (A * A) * B - 1 / 4 * A * C + D

/-- Solvers.hpp lines 155-158: the vector `c` handed to `solveCubic` when `r` is
near zero (`q` is in scope there and is not used). -/
def cubicFactorCoeffs (p _q : α) : List α := [p, 1, 0, 1]

/-- Solvers.hpp lines 166-170: the vector `c` of the resolvent cubic. -/
def resolventCoeffs (p q r : α) : List α :=
  [1 / 2 * r * p - 1 / 8 * q * q, -r, (-1) / 2 * p, 1]

/-- Solvers.hpp lines 181-192 and 194-205: the treatment of `u` and of `v`;
`none` is the `return 0`. -/
def rootOrZero (S : Scalar α) (x : α) : Option α :=
  if S.isZero x then some 0
  else if x > 0 then some (S.sqrt x)
  else none

/-- Solvers.hpp lines 207-209: `c` for the first quadratic; `c[3]` still holds
the `1` of the resolvent cubic. -/
def firstQuadricCoeffs (z u v q : α) : List α :=
  [z - u, if q < 0 then -v else v, 1, 1]

/-- Solvers.hpp lines 213-215: `c` for the second quadratic. -/
def secondQuadricCoeffs (z u v q : α) : List α :=
  [z + u, if q < 0 then v else -v, 1, 1]

/-- Solvers.hpp lines 153-162 and 225-233: the branch of `solveQuartic` without
absolute term, with the resubstitution that follows it. -/
def quarticNoAbsoluteTerm (S : Scalar α) (A p q : α) (roots : List α) :
    Option (Nat × List α) := do
  -- No absolute term: y(y^3 + py + q) = 0.
  let (num, roots) ← solveCubic S (cubicFactorCoeffs p q) roots
  let roots ← wr roots num 0
  let num := num + 1
  -- Resubstitute.
  let roots ← resubstitute (1 / 4 * A) num 0 roots
  pure (num, roots)

/-- Solvers.hpp lines 207-233: the two quadratics of `solveQuartic`, the copy of
`s` into `roots` and the resubstitution. -/
def quarticQuadrics (S : Scalar α) (A q z u v : α) (roots : List α) :
    Option (Nat × List α) := do
  let (num, roots) ← solveQuadric S (firstQuadricCoeffs z u v q) roots
  let tmp := num
  let (num2, s) ← solveQuadric S (secondQuadricCoeffs z u v q) [0, 0]
  let num := num + num2
  let s0 ← rd s 0
  let roots ← wr roots tmp s0
  let s1 ← rd s 1
  let roots ← wr roots (tmp + 1) s1
  -- Resubstitute.
  let roots ← resubstitute (1 / 4 * A) num 0 roots
  pure (num, roots)

/-- Solvers.hpp lines 164-233: the resolvent-cubic branch of `solveQuartic`. -/
def quarticResolvent (S : Scalar α) (A p q r : α) (roots : List α) :
    Option (Nat × List α) := do
  -- Solve the resolvent cubic...
  let (_, roots) ← solveCubic S (resolventCoeffs p q r) roots
  -- And take the one real solution
  let z ← rd roots 0
  -- To build two quadratics.
  match rootOrZero S (z * z - r) with
  | none => pure (0, roots)
  | some u =>
    match rootOrZero S (2 * z - p) with
    | none => pure (0, roots)
    | some v => quarticQuadrics S A q z u v roots

/-- Solvers.hpp lines 126-235. -/
def solveQuartic (S : Scalar α) (coeffs roots : List α) : Option (Nat × List α) := do
  -- Quartic: x^4 + Ax^3 + Bx^2 + Cx + D = 0.
  let c3 ← rd coeffs 3
  let c4 ← rd coeffs 4
  let A := c3 / c4
  let c2 ← rd coeffs 2
  let B := c2 / c4
  let c1 ← rd coeffs 1
  let C := c1 / c4
  let c0 ← rd coeffs 0
  let D := c0 / c4
  let p := quarticP A B
  let q := quarticQ A B C
  let r := quarticR A B C D
  if S.isZero r then
    quarticNoAbsoluteTerm S A p q roots
  else
    quarticResolvent S A p q r roots

/-- The real cube root. -/
noncomputable def realCbrt (x : ℝ) : ℝ :=
  if 0 ≤ x then x ^ ((1 : ℝ) / 3) else -((-x) ^ ((1 : ℝ) / 3))

/-- Modelled from the spec: `isZero` (Float.hpp), `pi` (Constants.hpp) and the
functions `sqrt`, `cbrt`, `acos`, `cos` (Math.hpp, cmath) are declared outside
Solvers.hpp; they are read over the reals, with `isZero x` as `|x| < eps` for a
fixed `eps`. -/
noncomputable def realScalar (eps : ℝ) : Scalar ℝ where
  sqrt := Real.sqrt
  cbrt := realCbrt
  acos := Real.arccos
  cos := Real.cos
  pi := Real.pi
  isZero := fun x => decide (|x| < eps)

/-- A scalar over the rationals with exact-zero test, for running the solvers
on inputs whose branches need no irrational value. -/
def ratScalar : Scalar ℚ where
  sqrt := fun x => x
  cbrt := fun x => x
  acos := fun _ => 0
  cos := fun _ => 1
  pi := 3
  isZero := fun x => decide (x = 0)

/-! ## Evaluating the buffer operations -/

@[simp]
theorem rd_zero {β : Type} (x : β) (xs : List β) : rd (x :: xs) 0 = some x := by
  simp [rd]

@[simp]
theorem rd_one {β : Type} (x y : β) (xs : List β) : rd (x :: y :: xs) 1 = some y := by
  simp [rd]

@[simp]
theorem rd_two {β : Type} (x y z : β) (xs : List β) :
    rd (x :: y :: z :: xs) 2 = some z := by
  simp [rd]

@[simp]
theorem rd_three {β : Type} (x y z w : β) (xs : List β) :
    rd (x :: y :: z :: w :: xs) 3 = some w := by
  simp [rd]

@[simp]
theorem rd_four {β : Type} (x y z w v : β) (xs : List β) :
    rd (x :: y :: z :: w :: v :: xs) 4 = some v := by
  simp [rd]

@[simp]
theorem wr_zero {β : Type} (x a : β) (xs : List β) :
    wr (x :: xs) 0 a = some (a :: xs) := by
  simp [wr]

@[simp]
theorem wr_one {β : Type} (x y a : β) (xs : List β) :
    wr (x :: y :: xs) 1 a = some (x :: a :: xs) := by
  simp [wr]

@[simp]
theorem wr_two {β : Type} (x y z a : β) (xs : List β) :
    wr (x :: y :: z :: xs) 2 a = some (x :: y :: a :: xs) := by
  simp [wr]

@[simp]
theorem wr_three {β : Type} (x y z w a : β) (xs : List β) :
    wr (x :: y :: z :: w :: xs) 3 a = some (x :: y :: z :: a :: xs) := by
  simp [wr]

/-- The resubstitution loop stays inside a buffer that holds the indices it
visits, keeps the length and touches no other entry. -/
theorem resubstitute_spec (sub : α) :
    ∀ (n i : Nat) (roots : List α), i + n ≤ roots.length →
      ∃ roots', resubstitute sub n i roots = some roots' ∧
        roots'.length = roots.length ∧
        ∀ j, (j < i ∨ i + n ≤ j) → rd roots' j = rd roots j := by
  intro n
  induction n with
  | zero =>
    intro i roots _
    exact ⟨roots, rfl, rfl, fun _ _ => rfl⟩
  | succ n ih =>
    intro i roots h
    have hi : i < roots.length := by omega
    obtain ⟨roots', h1, h2, h3⟩ := ih (i + 1) (roots.set i (roots[i] - sub))
      (by rw [List.length_set]; omega)
    refine ⟨roots', ?_, ?_, ?_⟩
    · simp only [resubstitute, rd, wr, List.getElem?_eq_getElem hi, hi, if_true,
        Option.bind_eq_bind, Option.some_bind]
      exact h1
    · rw [h2, List.length_set]
    · intro j hj
      rw [h3 j (by omega)]
      simp only [rd]
      rw [List.getElem?_set_ne (by omega)]

/-! ## The solvers on buffers that hold their capacity -/

/-- What `solveQuadric` does on a coefficient vector of at least three entries
and a roots buffer of at least two. -/
theorem solveQuadric_eval (S : Scalar α) (c b a r0 r1 : α) (cs rest : List α) :
    solveQuadric S (c :: b :: a :: cs) (r0 :: r1 :: rest) =
      if S.isZero (b / (2 * a) * (b / (2 * a)) - c / a) then
        some (1, -(b / (2 * a)) :: r1 :: rest)
      else if b / (2 * a) * (b / (2 * a)) - c / a > 0 then
        some (2, (S.sqrt (b / (2 * a) * (b / (2 * a)) - c / a) - b / (2 * a)) ::
          (-S.sqrt (b / (2 * a) * (b / (2 * a)) - c / a) - b / (2 * a)) :: rest)
      else some (0, r0 :: r1 :: rest) := by
  simp only [solveQuadric, rd_zero, rd_one, rd_two, wr_zero, wr_one,
    Option.bind_eq_bind, Option.some_bind, Option.pure_def]

/-- What `solveCubic` does on a coefficient vector of at least four entries and
a roots buffer of at least three. -/
theorem solveCubic_eval (S : Scalar α) (c0 c1 c2 c3 r0 r1 r2 : α) (cs rest : List α) :
    solveCubic S (c0 :: c1 :: c2 :: c3 :: cs) (r0 :: r1 :: r2 :: rest) =
      (let A := c2 / c3
       let p := cubicP A (c1 / c3)
       let q := cubicQ A (c1 / c3) (c0 / c3)
       let D := q * q + p * p * p
       let sub := 1 / 3 * A
       if S.isZero D then
         if S.isZero q then some (1, (0 - sub) :: r1 :: r2 :: rest)
         else some (2, (2 * S.cbrt (-q) - sub) :: (-S.cbrt (-q) - sub) :: r2 :: rest)
       else if D < 0 then
         some (3,
           (2 * S.sqrt (-p) * S.cos (1 / 3 * S.acos (-q / S.sqrt (-(p * p * p)))) - sub) ::
           (-(2 * S.sqrt (-p)) *
              S.cos (1 / 3 * S.acos (-q / S.sqrt (-(p * p * p))) + S.pi / 3) - sub) ::
           (-(2 * S.sqrt (-p)) *
              S.cos (1 / 3 * S.acos (-q / S.sqrt (-(p * p * p))) - S.pi / 3) - sub) :: rest)
       else
         some (1, (S.cbrt (S.sqrt D - q) + -S.cbrt (S.sqrt D + q) - sub) :: r1 :: r2 :: rest)) := by
  simp only [solveCubic, rd_zero, rd_one, rd_two, rd_three, Option.bind_eq_bind,
    Option.some_bind, Option.pure_def]
  split_ifs <;>
    simp only [wr_zero, wr_one, wr_two, Option.bind_eq_bind, Option.some_bind, resubstitute,
      rd_zero, rd_one, rd_two, Option.pure_def, zero_add, Nat.reduceAdd]

/-- What `solveQuartic` does on a coefficient vector of at least five entries: the
depressed coefficients and the choice of branch. -/
theorem solveQuartic_eval (S : Scalar α) (c0 c1 c2 c3 c4 : α) (cs roots : List α) :
    solveQuartic S (c0 :: c1 :: c2 :: c3 :: c4 :: cs) roots =
      if S.isZero (quarticR (c3 / c4) (c2 / c4) (c1 / c4) (c0 / c4)) then
        quarticNoAbsoluteTerm S (c3 / c4) (quarticP (c3 / c4) (c2 / c4))
          (quarticQ (c3 / c4) (c2 / c4) (c1 / c4)) roots
      else
        quarticResolvent S (c3 / c4) (quarticP (c3 / c4) (c2 / c4))
          (quarticQ (c3 / c4) (c2 / c4) (c1 / c4))
          (quarticR (c3 / c4) (c2 / c4) (c1 / c4) (c0 / c4)) roots := by
  simp only [solveQuartic, rd_zero, rd_one, rd_two, rd_three, rd_four, Option.bind_eq_bind,
    Option.some_bind]

/-- Shape of the result of `solveQuadric`: it succeeds on a buffer of at least two
entries, returns at most 2 and leaves the entries from the count on as they were. -/
theorem solveQuadric_shape (S : Scalar α) (c b a r0 r1 : α) (cs rest : List α) :
    ∃ n x0 x1, solveQuadric S (c :: b :: a :: cs) (r0 :: r1 :: rest) =
        some (n, x0 :: x1 :: rest) ∧ n ≤ 2 ∧ (n = 0 → x0 = r0) ∧ (n ≤ 1 → x1 = r1) := by
  rw [solveQuadric_eval]
  split_ifs
  · exact ⟨1, _, _, rfl, by omega, by omega, fun _ => rfl⟩
  · exact ⟨2, _, _, rfl, by omega, by omega, by omega⟩
  · exact ⟨0, _, _, rfl, by omega, fun _ => rfl, fun _ => rfl⟩

/-- Shape of the result of `solveCubic`: it succeeds on a buffer of at least three
entries, returns 1, 2 or 3 and leaves the entries from the count on as they were. -/
theorem solveCubic_shape (S : Scalar α) (c0 c1 c2 c3 r0 r1 r2 : α) (cs rest : List α) :
    ∃ n x0 x1 x2, solveCubic S (c0 :: c1 :: c2 :: c3 :: cs) (r0 :: r1 :: r2 :: rest) =
        some (n, x0 :: x1 :: x2 :: rest) ∧ 1 ≤ n ∧ n ≤ 3 ∧ (n ≤ 1 → x1 = r1) ∧
        (n ≤ 2 → x2 = r2) := by
  rw [solveCubic_eval]
  simp only []
  split_ifs
  · exact ⟨1, _, _, _, rfl, by omega, by omega, fun _ => rfl, fun _ => rfl⟩
  · exact ⟨2, _, _, _, rfl, by omega, by omega, by omega, fun _ => rfl⟩
  · exact ⟨3, _, _, _, rfl, by omega, by omega, by omega, by omega⟩
  · exact ⟨1, _, _, _, rfl, by omega, by omega, fun _ => rfl, fun _ => rfl⟩

/-- Shape of the branch without absolute term on a buffer of four entries. -/
theorem quarticNoAbsoluteTerm_shape (S : Scalar α) (A p q r0 r1 r2 r3 : α) :
    ∃ n x0 x1 x2 x3, quarticNoAbsoluteTerm S A p q [r0, r1, r2, r3] =
        some (n, [x0, x1, x2, x3]) ∧ 2 ≤ n ∧ n ≤ 4 ∧ (n ≤ 2 → x2 = r2) ∧ (n ≤ 3 → x3 = r3) := by
  obtain ⟨n, x0, x1, x2, h, hn1, hn3, f1, f2⟩ :=
    solveCubic_shape S p 1 0 1 r0 r1 r2 [] [r3]
  simp only [quarticNoAbsoluteTerm, cubicFactorCoeffs, h, Option.bind_eq_bind, Option.some_bind]
  obtain rfl | rfl | rfl : n = 1 ∨ n = 2 ∨ n = 3 := by omega
  all_goals
    simp only [wr_one, wr_two, wr_three, Option.some_bind, resubstitute, rd_zero, rd_one, rd_two,
      rd_three, wr_zero, zero_add, Option.bind_eq_bind, Option.pure_def, Nat.reduceAdd]
  · exact ⟨2, _, _, _, _, rfl, by omega, by omega, fun _ => f2 (by omega), fun _ => rfl⟩
  · exact ⟨3, _, _, _, _, rfl, by omega, by omega, by omega, fun _ => rfl⟩
  · exact ⟨4, _, _, _, _, rfl, by omega, by omega, by omega, by omega⟩

/-- Shape of the two-quadratics stage on a buffer of four entries. -/
theorem quarticQuadrics_shape (S : Scalar α) (A q z u v r0 r1 r2 r3 : α) :
    ∃ n x0 x1 x2 x3, quarticQuadrics S A q z u v [r0, r1, r2, r3] =
        some (n, [x0, x1, x2, x3]) ∧ n ≤ 4 := by
  obtain ⟨n1, y0, y1, h1, hn1, -, -⟩ :=
    solveQuadric_shape S (z - u) (if q < 0 then -v else v) 1 r0 r1 [1] [r2, r3]
  obtain ⟨n2, s0, s1, h2, hn2, -, -⟩ :=
    solveQuadric_shape S (z + u) (if q < 0 then v else -v) 1 0 0 [1] []
  simp only [quarticQuadrics, firstQuadricCoeffs, secondQuadricCoeffs, h1, h2,
    Option.bind_eq_bind, Option.some_bind, rd_zero, rd_one]
  obtain rfl | rfl | rfl : n1 = 0 ∨ n1 = 1 ∨ n1 = 2 := by omega
  all_goals obtain rfl | rfl | rfl : n2 = 0 ∨ n2 = 1 ∨ n2 = 2 := by omega
  all_goals
    simp only [wr_zero, wr_one, wr_two, wr_three, Option.some_bind, resubstitute, rd_zero,
      rd_one, rd_two, rd_three, zero_add, Option.bind_eq_bind, Option.pure_def, Nat.reduceAdd]
    exact ⟨_, _, _, _, _, rfl, by omega⟩

/-- Shape of the resolvent-cubic branch on a buffer of four entries. -/
theorem quarticResolvent_shape (S : Scalar α) (A p q r r0 r1 r2 r3 : α) :
    ∃ n x0 x1 x2 x3, quarticResolvent S A p q r [r0, r1, r2, r3] =
        some (n, [x0, x1, x2, x3]) ∧ n ≤ 4 := by
  obtain ⟨n, x0, x1, x2, h, -, -, -, -⟩ :=
    solveCubic_shape S (1 / 2 * r * p - 1 / 8 * q * q) (-r) ((-1) / 2 * p) 1 r0 r1 r2 [] [r3]
  simp only [quarticResolvent, resolventCoeffs, h, Option.bind_eq_bind, Option.some_bind,
    rd_zero]
  cases rootOrZero S (x0 * x0 - r) with
  | none => exact ⟨0, _, _, _, _, rfl, by omega⟩
  | some u =>
    cases rootOrZero S (2 * x0 - p) with
    | none => exact ⟨0, _, _, _, _, rfl, by omega⟩
    | some v => exact quarticQuadrics_shape S A q x0 u v x0 x1 x2 r3

/-- The generic solver run over the rationals: `x² - 4x + 4` has the double root `2`. -/
theorem solveQuadric_rat_double_root :
    solveQuadric ratScalar [4, -4, 1] [7, 7] = some (1, [2, 7]) := by
  rw [solveQuadric_eval]
  norm_num [ratScalar]

/-! ## The real-number reading -/

/-- The near-zero test of the real reading. -/
theorem isZero_real (eps x : ℝ) : (realScalar eps).isZero x = decide (|x| < eps) := rfl

/-- The cube of `realCbrt x` is `x`: it is the real cube root. -/
theorem realCbrt_cube (x : ℝ) : realCbrt x ^ 3 = x := by
  unfold realCbrt
  split_ifs with h
  · rw [← Real.rpow_natCast, ← Real.rpow_mul h]; norm_num
  · have h' : 0 ≤ -x := by linarith
    have : ((-x) ^ ((1:ℝ) / 3)) ^ 3 = -x := by
      rw [← Real.rpow_natCast, ← Real.rpow_mul h']; norm_num
    rw [neg_pow, this]; norm_num

/-- The cube root of `0` is `0`. -/
theorem realCbrt_zero : realCbrt 0 = 0 := by
  have h := realCbrt_cube 0
  exact pow_eq_zero_iff (by norm_num) |>.mp h

/-- Cubing is injective on the reals. -/
theorem cube_injective {x y : ℝ} (h : x ^ 3 = y ^ 3) : x = y := by
  have hm : StrictMono (fun a : ℝ => a ^ 3) := Odd.strictMono_pow (by decide)
  exact hm.injective h

/-- Over the reals, `solveQuadric` with `D ≤ -eps` returns 0 and writes nothing. -/
theorem solveQuadric_real_neg (eps c b a r0 r1 : ℝ) (cs rest : List ℝ) (heps : 0 < eps)
    (hD : b / (2 * a) * (b / (2 * a)) - c / a ≤ -eps) :
    solveQuadric (realScalar eps) (c :: b :: a :: cs) (r0 :: r1 :: rest) =
      some (0, r0 :: r1 :: rest) := by
  have hneg : b / (2 * a) * (b / (2 * a)) - c / a < 0 := by linarith
  have hnz : ¬ |b / (2 * a) * (b / (2 * a)) - c / a| < eps := by
    rw [abs_of_neg hneg]; linarith
  rw [solveQuadric_eval]
  simp only [isZero_real, hnz, decide_False, Bool.false_eq_true, if_false, gt_iff_lt,
    not_lt.mpr hneg.le]

/-- Over the reals, `solveCubic` with `D ≤ -eps` takes the trigonometric branch. -/
theorem solveCubic_real_trig (eps c0 c1 c2 c3 r0 r1 r2 p q : ℝ) (cs rest : List ℝ)
    (hp : cubicP (c2 / c3) (c1 / c3) = p) (hq : cubicQ (c2 / c3) (c1 / c3) (c0 / c3) = q)
    (heps : 0 < eps) (hD : q * q + p * p * p ≤ -eps) :
    solveCubic (realScalar eps) (c0 :: c1 :: c2 :: c3 :: cs) (r0 :: r1 :: r2 :: rest) =
      some (3,
        (2 * Real.sqrt (-p) * Real.cos (1 / 3 * Real.arccos (-q / Real.sqrt (-(p * p * p))))
          - 1 / 3 * (c2 / c3)) ::
        (-(2 * Real.sqrt (-p)) *
          Real.cos (1 / 3 * Real.arccos (-q / Real.sqrt (-(p * p * p))) + Real.pi / 3)
          - 1 / 3 * (c2 / c3)) ::
        (-(2 * Real.sqrt (-p)) *
          Real.cos (1 / 3 * Real.arccos (-q / Real.sqrt (-(p * p * p))) - Real.pi / 3)
          - 1 / 3 * (c2 / c3)) :: rest) := by
  have hneg : q * q + p * p * p < 0 := by linarith
  have hnz : ¬ |q * q + p * p * p| < eps := by rw [abs_of_neg hneg]; linarith
  rw [solveCubic_eval]
  simp only [hp, hq, isZero_real, hnz, hneg, decide_False, if_true, if_false]
  rfl

/-- Over the reals, `solveCubic` with `D ≥ eps` takes the one-real-solution branch. -/
theorem solveCubic_real_cardano (eps c0 c1 c2 c3 r0 r1 r2 p q : ℝ) (cs rest : List ℝ)
    (hp : cubicP (c2 / c3) (c1 / c3) = p) (hq : cubicQ (c2 / c3) (c1 / c3) (c0 / c3) = q)
    (heps : 0 < eps) (hD : eps ≤ q * q + p * p * p) :
    solveCubic (realScalar eps) (c0 :: c1 :: c2 :: c3 :: cs) (r0 :: r1 :: r2 :: rest) =
      some (1,
        (realCbrt (Real.sqrt (q * q + p * p * p) - q) +
          -realCbrt (Real.sqrt (q * q + p * p * p) + q) - 1 / 3 * (c2 / c3)) ::
        r1 :: r2 :: rest) := by
  have hpos : 0 < q * q + p * p * p := by linarith
  have hnz : ¬ |q * q + p * p * p| < eps := by rw [abs_of_pos hpos]; linarith
  rw [solveCubic_eval]
  simp only [hp, hq, isZero_real, hnz, not_lt.mpr hpos.le, decide_False, if_true, if_false]
  rfl

/-- The three values of the trigonometric branch for `p = -1/3`, `q = 0`. -/
theorem trig_values :
    2 * Real.sqrt (-(-1 / 3 : ℝ)) *
        Real.cos (1 / 3 * Real.arccos (-0 / Real.sqrt (-((-1 / 3 : ℝ) * (-1 / 3) * (-1 / 3))))) = 1 ∧
    -(2 * Real.sqrt (-(-1 / 3 : ℝ))) *
        Real.cos (1 / 3 * Real.arccos (-0 / Real.sqrt (-((-1 / 3 : ℝ) * (-1 / 3) * (-1 / 3))))
          + Real.pi / 3) = 0 ∧
    -(2 * Real.sqrt (-(-1 / 3 : ℝ))) *
        Real.cos (1 / 3 * Real.arccos (-0 / Real.sqrt (-((-1 / 3 : ℝ) * (-1 / 3) * (-1 / 3))))
          - Real.pi / 3) = -1 := by
  have ha : Real.arccos (-0 / Real.sqrt (-((-1 / 3 : ℝ) * (-1 / 3) * (-1 / 3)))) = Real.pi / 2 := by
    rw [neg_zero, zero_div, Real.arccos_zero]
  have h1 : (1 : ℝ) / 3 * (Real.pi / 2) = Real.pi / 6 := by ring
  have h2 : Real.pi / 6 + Real.pi / 3 = Real.pi / 2 := by ring
  have h3 : Real.pi / 6 - Real.pi / 3 = -(Real.pi / 6) := by ring
  have hs : Real.sqrt (-(-1 / 3 : ℝ)) * Real.sqrt 3 = 1 := by
    rw [← Real.sqrt_mul (by norm_num)]
    norm_num
  rw [ha, h1, h2, h3, Real.cos_neg, Real.cos_pi_div_six, Real.cos_pi_div_two]
  refine ⟨by linear_combination hs, by ring, by linear_combination -hs⟩

/-- Cardano: the value of the one-real-solution branch solves `y³ + 3py + 2q = 0`. -/
theorem cardano_identity (p q : ℝ) (hD : 0 ≤ q * q + p * p * p) :
    (realCbrt (Real.sqrt (q * q + p * p * p) - q) +
        -realCbrt (Real.sqrt (q * q + p * p * p) + q)) ^ 3
      + 3 * p * (realCbrt (Real.sqrt (q * q + p * p * p) - q) +
        -realCbrt (Real.sqrt (q * q + p * p * p) + q)) + 2 * q = 0 := by
  set s := Real.sqrt (q * q + p * p * p) with hs
  have hss : s * s = q * q + p * p * p := Real.mul_self_sqrt hD
  set u := realCbrt (s - q) with hu
  set v := realCbrt (s + q) with hv
  have hu3 : u ^ 3 = s - q := realCbrt_cube _
  have hv3 : v ^ 3 = s + q := realCbrt_cube _
  have huv : u * v = p := by
    apply cube_injective
    rw [mul_pow, hu3, hv3]
    linear_combination hss
  have : (u + -v) ^ 3 = u ^ 3 - v ^ 3 - 3 * (u * v) * (u + -v) := by ring
  rw [this, hu3, hv3, huv]
  ring

/-- The first value of the trigonometric branch solves `y³ + 3py + 2q = 0` and is
not negative. -/
theorem trig_identity (p q : ℝ) (hD : q * q + p * p * p < 0) :
    (2 * Real.sqrt (-p) * Real.cos (1 / 3 * Real.arccos (-q / Real.sqrt (-(p * p * p))))) ^ 3
      + 3 * p * (2 * Real.sqrt (-p) *
          Real.cos (1 / 3 * Real.arccos (-q / Real.sqrt (-(p * p * p))))) + 2 * q = 0 ∧
    0 ≤ 2 * Real.sqrt (-p) * Real.cos (1 / 3 * Real.arccos (-q / Real.sqrt (-(p * p * p)))) := by
  have hp3 : p * p * p < 0 := by nlinarith [mul_self_nonneg q]
  have hp : p < 0 := by
    by_contra h
    have h0 : 0 ≤ p := not_lt.mp h
    have : 0 ≤ p * p * p := mul_nonneg (mul_nonneg h0 h0) h0
    linarith
  set s := Real.sqrt (-p) with hs
  have hs0 : 0 < s := Real.sqrt_pos.mpr (by linarith)
  have hss : s * s = -p := Real.mul_self_sqrt (by linarith)
  have hs3 : Real.sqrt (-(p * p * p)) = s ^ 3 := by
    rw [Real.sqrt_eq_iff_mul_self_eq (by linarith) (by positivity)]
    have : s ^ 3 * s ^ 3 = (s * s) ^ 3 := by ring
    rw [this, hss]; ring
  rw [hs3]
  have hs3pos : 0 < s ^ 3 := by positivity
  have hq2 : q * q < s ^ 3 * s ^ 3 := by
    have : s ^ 3 * s ^ 3 = (s * s) ^ 3 := by ring
    rw [this, hss]; nlinarith
  have hlo : -(s ^ 3) < q := by nlinarith
  have hhi : q < s ^ 3 := by nlinarith
  set rho := -q / s ^ 3 with hrho
  have hr1 : -1 ≤ rho := by
    rw [hrho, le_div_iff₀ hs3pos]; linarith
  have hr2 : rho ≤ 1 := by
    rw [hrho, div_le_iff₀ hs3pos]; linarith
  set phi := 1 / 3 * Real.arccos rho with hphi
  have h3 : Real.cos (3 * phi) = rho := by
    have : 3 * phi = Real.arccos rho := by rw [hphi]; ring
    rw [this, Real.cos_arccos hr1 hr2]
  rw [Real.cos_three_mul] at h3
  have hq : q = -(rho * s ^ 3) := by
    rw [hrho]; field_simp
  have hc : 0 ≤ Real.cos phi := by
    apply Real.cos_nonneg_of_mem_Icc
    have h1 := Real.arccos_nonneg rho
    have h2 := Real.arccos_le_pi rho
    have hpi := Real.pi_pos
    constructor
    · rw [hphi]; linarith
    · rw [hphi]; linarith
  refine ⟨?_, by positivity⟩
  have hpp : p = -(s * s) := by linarith
  rw [hq, hpp]
  linear_combination 2 * s ^ 3 * h3

/-- With `B - 3/8 * A²` in the place of `p`, the `q` and `r` the code computes are
the coefficients of the depressed quartic. -/
theorem quartic_depression_negated (A B C D y : ℝ) :
    evalPoly [D, C, B, A, 1] (y - A / 4) =
      evalPoly [quarticR A B C D, quarticQ A B C, B - 3 / 8 * (A * A), 0, 1] y := by
  simp only [evalPoly, List.foldr, quarticQ, quarticR]
  ring

/-! ## The claims -/

/-- C1 (round trip of `solveCubic`) fails on the code. On `x³ - 1`, coefficients
`[-1, 0, 0, 1]`, the value `D = q² + p³` the solver computes is `1/9`, so for every
`eps` with `0 < eps ≤ 1/9` no near-zero branch is taken; the solver returns count 1 with
`roots[0] = cbrt (2/3)`, and the polynomial there is `-1/3`, not `0`. (The only real
root is `1`; line 65 scales `q` by `1/3` where Cardano's formula needs `1/2`.) -/
theorem solveCubic_returns_non_root (eps r0 r1 r2 : ℝ) (h0 : 0 < eps) (h1 : eps ≤ 1 / 9) :
    eps ≤ |cubicQ (0 / 1) (0 / 1) (-1 / 1) * cubicQ (0 / 1) (0 / 1) (-1 / 1) +
        cubicP (0 / 1) (0 / 1) * cubicP (0 / 1) (0 / 1) * cubicP (0 / 1) (0 / 1)| ∧
      solveCubic (realScalar eps) [-1, 0, 0, 1] [r0, r1, r2] =
        some (1, [realCbrt (2 / 3), r1, r2]) ∧
      evalPoly [-1, 0, 0, 1] (realCbrt (2 / 3)) = -1 / 3 := by
  have hs : Real.sqrt (-1 / 3 * (-1 / 3) + 0 * 0 * 0) = 1 / 3 := by
    rw [Real.sqrt_eq_iff_mul_self_eq (by norm_num) (by norm_num)]; norm_num
  refine ⟨?_, ?_, ?_⟩
  · norm_num [cubicP, cubicQ]
    rw [abs_of_pos (by norm_num)]; linarith
  · rw [solveCubic_real_cardano eps (-1) 0 0 1 r0 r1 r2 0 (-1 / 3) [] []
      (by norm_num [cubicP]) (by norm_num [cubicQ]) h0 (by norm_num; linarith), hs]
    have e1 : (1 : ℝ) / 3 - -1 / 3 = 2 / 3 := by norm_num
    have e2 : (1 : ℝ) / 3 + -1 / 3 = 0 := by norm_num
    rw [e1, e2, realCbrt_zero]
    norm_num
  · have h3 := realCbrt_cube (2 / 3)
    simp only [evalPoly, List.foldr]
    linear_combination h3

/-- The failing input of C1 at `eps = 1/100` and a zeroed buffer. -/
theorem solveCubic_returns_non_root_witness :
    solveCubic (realScalar (1 / 100)) [-1, 0, 0, 1] [0, 0, 0] =
        some (1, [realCbrt (2 / 3), 0, 0]) ∧
      evalPoly [-1, 0, 0, 1] (realCbrt (2 / 3)) = -1 / 3 :=
  (solveCubic_returns_non_root (1 / 100) 0 0 0 (by norm_num) (by norm_num)).2

/-- C2 (round trip of `solveQuartic`) fails on the code. On `x⁴ - x²`, coefficients
`[0, 0, -1, 0, 1]`, the depressed constant term `r` is exactly `0`; for every `eps` with
`0 < eps ≤ 1/100` the solver returns count 2 with `roots = [w, 0, ..]`, and `w` is not
a root of the polynomial. (The branch hands `[p, 1, 0, 1]` to `solveCubic`, not
`[q, p, 0, 1]`.) -/
theorem solveQuartic_returns_non_root (eps r0 r1 r2 r3 : ℝ) (h0 : 0 < eps)
    (h1 : eps ≤ 1 / 100) :
    quarticR (0 / 1) (-1 / 1) (0 / 1) (0 / 1) = (0 : ℝ) ∧
      ∃ w : ℝ, solveQuartic (realScalar eps) [0, 0, -1, 0, 1] [r0, r1, r2, r3] =
          some (2, [w, 0, r2, r3]) ∧
        evalPoly [0, 0, -1, 0, 1] w ≠ 0 := by
  have hP : quarticP ((0 : ℝ) / 1) (-1 / 1) = -1 := by norm_num [quarticP]
  have hQ : quarticQ ((0 : ℝ) / 1) (-1 / 1) (0 / 1) = 0 := by norm_num [quarticQ]
  have hR : quarticR ((0 : ℝ) / 1) (-1 / 1) (0 / 1) (0 / 1) = 0 := by norm_num [quarticR]
  have hz : (realScalar eps).isZero 0 = true := by
    simp only [isZero_real]; simpa using h0
  have hD : (0 : ℝ) ≤ -1 / 3 * (-1 / 3) + 1 / 3 * (1 / 3) * (1 / 3) := by norm_num
  have hid := cardano_identity (1 / 3) (-1 / 3) hD
  generalize hw : realCbrt (Real.sqrt (-1 / 3 * (-1 / 3) + 1 / 3 * (1 / 3) * (1 / 3)) - -1 / 3) +
    -realCbrt (Real.sqrt (-1 / 3 * (-1 / 3) + 1 / 3 * (1 / 3) * (1 / 3)) + -1 / 3) = w at hid
  refine ⟨hR, w, ?_, ?_⟩
  · rw [solveQuartic_eval, hP, hQ, hR]
    simp only [hz, if_true, quarticNoAbsoluteTerm, cubicFactorCoeffs]
    rw [solveCubic_real_cardano eps (-1) 1 0 1 r0 r1 r2 (1 / 3) (-1 / 3) [] [r3]
      (by norm_num [cubicP]) (by norm_num [cubicQ]) h0 (by norm_num; linarith), hw]
    simp only [Option.bind_eq_bind, Option.some_bind, wr_one, resubstitute, rd_zero, rd_one,
      wr_zero, zero_add, Option.pure_def, Nat.reduceAdd]
    norm_num
  · simp only [evalPoly, List.foldr]
    intro h
    have hfac : w * w * (w - 1) * (w + 1) = 0 := by linear_combination h
    rcases mul_eq_zero.mp hfac with h' | h'
    · rcases mul_eq_zero.mp h' with h'' | h''
      · rcases mul_eq_zero.mp h'' with h3 | h3 <;> (rw [h3] at hid; norm_num at hid)
      · have : w = 1 := by linarith
        rw [this] at hid; norm_num at hid
    · have : w = -1 := by linarith
      rw [this] at hid; norm_num at hid

/-- The failing input of C2 at `eps = 1/100` and a zeroed buffer. -/
theorem solveQuartic_returns_non_root_witness :
    ∃ w : ℝ, solveQuartic (realScalar (1 / 100)) [0, 0, -1, 0, 1] [0, 0, 0, 0] =
        some (2, [w, 0, 0, 0]) ∧
      evalPoly [0, 0, -1, 0, 1] w ≠ 0 :=
  (solveQuartic_returns_non_root (1 / 100) 0 0 0 0 (by norm_num) (by norm_num)).2

/-- C3: `solveQuadric` is sound and complete for real roots. For `a ≠ 0`, `eps > 0` and
`D = (b/(2a))² - c/a`: if `D ≥ eps` it returns 2 and `roots[0] > roots[1]` are exactly
the two real roots of `a x² + b x + c`; if `D ≤ -eps` it returns 0, leaves the buffer as
it was, and the polynomial has no real root; if `|D| < eps` it returns 1 with
`roots[0] = -b/(2a)`, where the polynomial equals `-a D`, of absolute value below
`|a| eps`. The three cases are exhaustive, so no other count occurs. -/
theorem solveQuadric_sound_complete (eps a b c r0 r1 : ℝ) (heps : 0 < eps) (ha : a ≠ 0) :
    (eps ≤ (b / (2 * a)) ^ 2 - c / a →
      solveQuadric (realScalar eps) [c, b, a] [r0, r1] =
        some (2, [Real.sqrt ((b / (2 * a)) ^ 2 - c / a) - b / (2 * a),
                  -Real.sqrt ((b / (2 * a)) ^ 2 - c / a) - b / (2 * a)]) ∧
      -Real.sqrt ((b / (2 * a)) ^ 2 - c / a) - b / (2 * a) <
        Real.sqrt ((b / (2 * a)) ^ 2 - c / a) - b / (2 * a) ∧
      ∀ x : ℝ, evalPoly [c, b, a] x = 0 ↔
        (x = Real.sqrt ((b / (2 * a)) ^ 2 - c / a) - b / (2 * a) ∨
         x = -Real.sqrt ((b / (2 * a)) ^ 2 - c / a) - b / (2 * a))) ∧
    ((b / (2 * a)) ^ 2 - c / a ≤ -eps →
      solveQuadric (realScalar eps) [c, b, a] [r0, r1] = some (0, [r0, r1]) ∧
      ∀ x : ℝ, evalPoly [c, b, a] x ≠ 0) ∧
    (|(b / (2 * a)) ^ 2 - c / a| < eps →
      solveQuadric (realScalar eps) [c, b, a] [r0, r1] = some (1, [-b / (2 * a), r1]) ∧
      evalPoly [c, b, a] (-b / (2 * a)) = -a * ((b / (2 * a)) ^ 2 - c / a) ∧
      |evalPoly [c, b, a] (-b / (2 * a))| < |a| * eps) ∧
    (eps ≤ (b / (2 * a)) ^ 2 - c / a ∨ (b / (2 * a)) ^ 2 - c / a ≤ -eps ∨
      |(b / (2 * a)) ^ 2 - c / a| < eps) := by
  have hsq : b / (2 * a) * (b / (2 * a)) - c / a = (b / (2 * a)) ^ 2 - c / a := by ring
  have hpoly : ∀ x : ℝ, evalPoly [c, b, a] x
      = a * ((x + b / (2 * a)) ^ 2 - ((b / (2 * a)) ^ 2 - c / a)) := by
    intro x
    simp only [evalPoly, List.foldr]
    field_simp
    ring
  rw [solveQuadric_eval, hsq]
  generalize (b / (2 * a)) ^ 2 - c / a = D at *
  refine ⟨?_, ?_, ?_, ?_⟩
  · intro hD
    have hpos : 0 < D := lt_of_lt_of_le heps hD
    have hnz : ¬ |D| < eps := by rw [abs_of_pos hpos]; linarith
    have hs : 0 < Real.sqrt D := Real.sqrt_pos.mpr hpos
    have hss : Real.sqrt D ^ 2 = D := Real.sq_sqrt hpos.le
    refine ⟨?_, by linarith, ?_⟩
    · simp [isZero_real, hnz, hpos, realScalar]
    · intro x
      rw [hpoly]
      constructor
      · intro h
        have h2 : (x + b / (2 * a)) ^ 2 - D = 0 := by
          rcases mul_eq_zero.mp h with h | h
          · exact absurd h ha
          · exact h
        have h3 : (x + b / (2 * a) - Real.sqrt D) * (x + b / (2 * a) + Real.sqrt D) = 0 := by
          nlinarith
        rcases mul_eq_zero.mp h3 with h | h
        · left; linarith
        · right; linarith
      · rintro (h | h) <;> rw [h] <;> ring_nf <;> rw [hss] <;> ring
  · intro hD
    have hneg : D < 0 := by linarith
    have hnz : ¬ |D| < eps := by rw [abs_of_neg hneg]; linarith
    refine ⟨?_, ?_⟩
    · simp [isZero_real, hnz, not_lt.mpr hneg.le]
    · intro x
      rw [hpoly]
      have : 0 < (x + b / (2 * a)) ^ 2 - D := by nlinarith [sq_nonneg (x + b / (2 * a))]
      exact mul_ne_zero ha this.ne'
  · intro hD
    refine ⟨?_, ?_, ?_⟩
    · simp [isZero_real, hD, neg_div]
    · rw [hpoly]; ring
    · rw [hpoly]
      have : a * ((-b / (2 * a) + b / (2 * a)) ^ 2 - D) = -(a * D) := by ring
      rw [this, abs_neg, abs_mul]
      exact mul_lt_mul_of_pos_left hD (abs_pos.mpr ha)
  · by_cases h1 : eps ≤ D
    · exact Or.inl h1
    · by_cases h2 : D ≤ -eps
      · exact Or.inr (Or.inl h2)
      · refine Or.inr (Or.inr ?_)
        rw [abs_lt]; constructor <;> linarith [not_le.mp h1, not_le.mp h2]

/-- The three quadratics of the test list, `x² - 5x + 6`, `x² + 1` and `x² - 4x + 4`,
obtained from C3 at `eps = 1/100`. -/
theorem solveQuadric_sound_complete_witness :
    solveQuadric (realScalar (1 / 100)) [6, -5, 1] [0, 0] = some (2, [3, 2]) ∧
    solveQuadric (realScalar (1 / 100)) [1, 0, 1] [0, 0] = some (0, [0, 0]) ∧
    solveQuadric (realScalar (1 / 100)) [4, -4, 1] [0, 0] = some (1, [2, 0]) := by
  have hs : Real.sqrt ((-5 / (2 * 1)) ^ 2 - 6 / 1) = 1 / 2 := by
    rw [Real.sqrt_eq_iff_mul_self_eq (by norm_num) (by norm_num)]; norm_num
  have h1 := ((solveQuadric_sound_complete (1 / 100) 1 (-5) 6 0 0 (by norm_num)
    (by norm_num)).1 (by norm_num)).1
  have h2 := ((solveQuadric_sound_complete (1 / 100) 1 0 1 0 0 (by norm_num)
    (by norm_num)).2.1 (by norm_num)).1
  have h3 := ((solveQuadric_sound_complete (1 / 100) 1 (-4) 4 0 0 (by norm_num)
    (by norm_num)).2.2.1 (by norm_num)).1
  rw [hs] at h1
  norm_num at h1 h3
  exact ⟨h1, h2, h3⟩

/-- C4 (the quartic `x⁴ - 10x² + 9`) fails on the code: for every `eps` with
`0 < eps ≤ 1/100`, `solveQuartic` on `[9, 0, -10, 0, 1]` returns count 0, not 4. The
resolvent cubic `z³ + 5z² - 9z - 45` has the root `3`, but `solveCubic` returns a first
value `z` below `3` (its `q` is scaled by `1/3`, not `1/2`), so `z² - 9` is negative and
not near zero and the solver takes the `return 0` of line 191. -/
theorem solveQuartic_biquadratic_returns_zero (eps r0 r1 r2 r3 : ℝ) (h0 : 0 < eps)
    (h1 : eps ≤ 1 / 100) :
    ∃ roots : List ℝ,
      solveQuartic (realScalar eps) [9, 0, -10, 0, 1] [r0, r1, r2, r3] = some (0, roots) := by
  have hP : quarticP ((0 : ℝ) / 1) (-10 / 1) = -10 := by norm_num [quarticP]
  have hQ : quarticQ ((0 : ℝ) / 1) (-10 / 1) (0 / 1) = 0 := by norm_num [quarticQ]
  have hR : quarticR ((0 : ℝ) / 1) (-10 / 1) (0 / 1) (9 / 1) = 9 := by norm_num [quarticR]
  have hz : (realScalar eps).isZero 9 = false := by
    simp only [isZero_real, decide_eq_false_iff_not, not_lt]
    rw [abs_of_pos (by norm_num)]; linarith
  have hD : (-560 / 81 : ℝ) * (-560 / 81) + -52 / 9 * (-52 / 9) * (-52 / 9) < 0 := by norm_num
  obtain ⟨hid, hy0⟩ := trig_identity (-52 / 9) (-560 / 81) hD
  rw [solveQuartic_eval, hP, hQ, hR]
  simp only [hz, Bool.false_eq_true, if_false, quarticResolvent, resolventCoeffs]
  rw [solveCubic_real_trig eps _ _ _ 1 r0 r1 r2 (-52 / 9) (-560 / 81) [] [r3]
    (by norm_num [cubicP]) (by norm_num [cubicQ]) h0 (by norm_num; linarith)]
  generalize 2 * Real.sqrt (-(-52 / 9)) * Real.cos (1 / 3 * Real.arccos
    (-(-560 / 81) / Real.sqrt (-(-52 / 9 * (-52 / 9) * (-52 / 9))))) = y at hid hy0 ⊢
  have hy1 : y < 23 / 5 := by
    by_contra h
    have h' : 23 / 5 ≤ y := not_lt.mp h
    nlinarith [mul_nonneg (sub_nonneg.mpr h') (sq_nonneg y),
      mul_nonneg (sub_nonneg.mpr h') (sub_nonneg.mpr h')]
  have hu : rootOrZero (realScalar eps)
      ((y - 1 / 3 * (-1 / 2 * -10 / 1)) * (y - 1 / 3 * (-1 / 2 * -10 / 1)) - 9) = none := by
    have hneg : (y - 1 / 3 * (-1 / 2 * -10 / 1)) * (y - 1 / 3 * (-1 / 2 * -10 / 1)) - 9
        < -(1 / 100) := by
      nlinarith
    have hnz : ¬ |(y - 1 / 3 * (-1 / 2 * -10 / 1)) * (y - 1 / 3 * (-1 / 2 * -10 / 1)) - 9|
        < eps := by
      rw [abs_of_neg (by linarith)]; linarith
    simp only [rootOrZero, isZero_real, hnz, decide_False, Bool.false_eq_true, if_false,
      gt_iff_lt]
    rw [if_neg (by linarith)]
  simp only [Option.bind_eq_bind, Option.some_bind, rd_zero, hu, Option.pure_def]
  exact ⟨_, rfl⟩

/-- The failing input of C4 at `eps = 1/100` and a zeroed buffer. -/
theorem solveQuartic_biquadratic_returns_zero_witness :
    ∃ roots : List ℝ,
      solveQuartic (realScalar (1 / 100)) [9, 0, -10, 0, 1] [0, 0, 0, 0] = some (0, roots) :=
  solveQuartic_biquadratic_returns_zero (1 / 100) 0 0 0 0 (by norm_num) (by norm_num)

/-- C5: on `x³ - 6x² + 11x - 6`, coefficients `[-6, 11, -6, 1]`, `solveCubic` returns
count 3 and the roots buffer holds `3, 2, 1`, for every `eps` with `0 < eps ≤ 1/100`
(real arithmetic with exact `acos` and `cos`). -/
theorem solveCubic_example (eps r0 r1 r2 : ℝ) (h0 : 0 < eps) (h1 : eps ≤ 1 / 100) :
    solveCubic (realScalar eps) [-6, 11, -6, 1] [r0, r1, r2] = some (3, [3, 2, 1]) := by
  rw [solveCubic_real_trig eps (-6) 11 (-6) 1 r0 r1 r2 (-1 / 3) 0 [] []
    (by norm_num [cubicP]) (by norm_num [cubicQ]) h0 (by norm_num; linarith)]
  obtain ⟨t0, t1, t2⟩ := trig_values
  rw [t0, t1, t2]
  norm_num

/-- C5 at `eps = 1/100` and a zeroed buffer. -/
theorem solveCubic_example_witness :
    solveCubic (realScalar (1 / 100)) [-6, 11, -6, 1] [0, 0, 0] = some (3, [3, 2, 1]) :=
  solveCubic_example (1 / 100) 0 0 0 (by norm_num) (by norm_num)

/-- C6: count range and buffer bound. For every scalar type, every near-zero predicate
(and every `sqrt`, `cbrt`, `acos`, `cos`) and every input with non-zero leading
coefficient, each solver run on a roots buffer of exactly its capacity (2, 3, 4) with
bounds-checked indexing returns a result, so no index it reads or writes is out of
bounds; the count is at most 2, 3, 4 respectively and the buffer keeps its length. -/
theorem solver_counts_and_bounds (S : Scalar α) (a0 a1 a2 b0 b1 b2 b3 c0 c1 c2 c3 c4 : α)
    (r0 r1 r2 r3 : α) (_ha : a2 ≠ 0) (_hb : b3 ≠ 0) (_hc : c4 ≠ 0) :
    (∃ n roots, solveQuadric S [a0, a1, a2] [r0, r1] = some (n, roots) ∧
        n ≤ 2 ∧ roots.length = 2) ∧
    (∃ n roots, solveCubic S [b0, b1, b2, b3] [r0, r1, r2] = some (n, roots) ∧
        n ≤ 3 ∧ roots.length = 3) ∧
    (∃ n roots, solveQuartic S [c0, c1, c2, c3, c4] [r0, r1, r2, r3] = some (n, roots) ∧
        n ≤ 4 ∧ roots.length = 4) := by
  refine ⟨?_, ?_, ?_⟩
  · obtain ⟨n, x0, x1, h, hn, -, -⟩ := solveQuadric_shape S a0 a1 a2 r0 r1 [] []
    exact ⟨n, _, h, hn, rfl⟩
  · obtain ⟨n, x0, x1, x2, h, -, hn, -, -⟩ := solveCubic_shape S b0 b1 b2 b3 r0 r1 r2 [] []
    exact ⟨n, _, h, hn, rfl⟩
  · rw [solveQuartic_eval]
    split_ifs
    · obtain ⟨n, x0, x1, x2, x3, h, -, hn, -, -⟩ :=
        quarticNoAbsoluteTerm_shape S (c3 / c4) (quarticP (c3 / c4) (c2 / c4))
          (quarticQ (c3 / c4) (c2 / c4) (c1 / c4)) r0 r1 r2 r3
      exact ⟨n, _, h, hn, rfl⟩
    · obtain ⟨n, x0, x1, x2, x3, h, hn⟩ :=
        quarticResolvent_shape S (c3 / c4) (quarticP (c3 / c4) (c2 / c4))
          (quarticQ (c3 / c4) (c2 / c4) (c1 / c4))
          (quarticR (c3 / c4) (c2 / c4) (c1 / c4) (c0 / c4)) r0 r1 r2 r3
      exact ⟨n, _, h, hn, rfl⟩

/-- C6 at the three polynomials of the test list, over the reals. -/
theorem solver_counts_and_bounds_witness :
    (∃ n roots, solveQuadric (realScalar (1 / 100)) [6, -5, 1] [0, 0] = some (n, roots) ∧
        n ≤ 2 ∧ roots.length = 2) ∧
    (∃ n roots, solveCubic (realScalar (1 / 100)) [-6, 11, -6, 1] [0, 0, 0] = some (n, roots) ∧
        n ≤ 3 ∧ roots.length = 3) ∧
    (∃ n roots, solveQuartic (realScalar (1 / 100)) [9, 0, -10, 0, 1] [0, 0, 0, 0] =
        some (n, roots) ∧ n ≤ 4 ∧ roots.length = 4) :=
  solver_counts_and_bounds (realScalar (1 / 100)) 6 (-5) 1 (-6) 11 (-6) 1 9 0 (-10) 0 1 0 0 0 0
    one_ne_zero one_ne_zero one_ne_zero

/-- C7 as stated fails: on `x⁴ + 1`, coefficients `[1, 0, 0, 0, 1]`, with the buffer
`[5, 5, 5, 5]` and `eps = 1/100`, `solveQuartic` returns count 0 and leaves
`[0, 0, -1, 5]` in the buffer: the resolvent cubic was solved into `roots`, and `s[0]`,
`s[1]` were copied to `roots[0]`, `roots[1]`. -/
theorem solveQuartic_writes_beyond_count :
    solveQuartic (realScalar (1 / 100)) [1, 0, 0, 0, 1] [5, 5, 5, 5] = some (0, [0, 0, -1, 5]) ∧
      rd ([0, 0, -1, 5] : List ℝ) 0 ≠ rd [5, 5, 5, 5] 0 ∧
      rd ([0, 0, -1, 5] : List ℝ) 2 ≠ rd [5, 5, 5, 5] 2 := by
  refine ⟨?_, by norm_num, by norm_num⟩
  have hP : quarticP ((0 : ℝ) / 1) (0 / 1) = 0 := by norm_num [quarticP]
  have hQ : quarticQ ((0 : ℝ) / 1) (0 / 1) (0 / 1) = 0 := by norm_num [quarticQ]
  have hR : quarticR ((0 : ℝ) / 1) (0 / 1) (0 / 1) (1 / 1) = 1 := by norm_num [quarticR]
  rw [solveQuartic_eval, hP, hQ, hR]
  have hz : (realScalar (1 / 100)).isZero 1 = false := by
    simp only [isZero_real]; norm_num
  simp only [hz, Bool.false_eq_true, if_false, quarticResolvent, resolventCoeffs]
  rw [solveCubic_real_trig (1 / 100) _ _ _ 1 5 5 5 (-1 / 3) 0 [] [5]
    (by norm_num [cubicP]) (by norm_num [cubicQ]) (by norm_num) (by norm_num)]
  obtain ⟨t0, t1, t2⟩ := trig_values
  rw [t0, t1, t2]
  have n0 : (1 : ℝ) - 1 / 3 * (-1 / 2 * 0 / 1) = 1 := by norm_num
  have n1 : (0 : ℝ) - 1 / 3 * (-1 / 2 * 0 / 1) = 0 := by norm_num
  have n2 : (-1 : ℝ) - 1 / 3 * (-1 / 2 * 0 / 1) = -1 := by norm_num
  have hu : rootOrZero (realScalar (1 / 100)) ((1 : ℝ) * 1 - 1) = some 0 := by
    simp only [rootOrZero, isZero_real]; norm_num
  have hv : rootOrZero (realScalar (1 / 100)) (2 * (1 : ℝ) - 0) = some (Real.sqrt 2) := by
    simp only [rootOrZero, isZero_real]; norm_num [realScalar]
  have hs : Real.sqrt 2 * Real.sqrt 2 = 2 := Real.mul_self_sqrt (by norm_num)
  simp only [Option.bind_eq_bind, Option.some_bind, rd_zero, Option.pure_def, n0, n1, n2, hu, hv,
    quarticQuadrics, firstQuadricCoeffs, secondQuadricCoeffs, lt_irrefl, if_false]
  rw [solveQuadric_real_neg (1 / 100) _ _ _ _ _ _ _ (by norm_num)
      (by ring_nf; nlinarith [hs]),
    solveQuadric_real_neg (1 / 100) _ _ _ _ _ _ _ (by norm_num)
      (by ring_nf; nlinarith [hs])]
  simp [resubstitute]

/-- C7, amended: `solveQuadric` and `solveCubic` return a count `n` and leave every
entry `roots[i]` with `n ≤ i` as it was; `solveQuartic` does so whenever the depressed
constant term `r` is near zero (the branch without absolute term). -/
theorem trailing_slots_unwritten (S : Scalar α) (a0 a1 a2 b0 b1 b2 b3 c0 c1 c2 c3 c4 : α)
    (r0 r1 r2 r3 : α) (_ha : a2 ≠ 0) (_hb : b3 ≠ 0) (_hc : c4 ≠ 0)
    (hr : S.isZero (quarticR (c3 / c4) (c2 / c4) (c1 / c4) (c0 / c4)) = true) :
    (∃ n roots, solveQuadric S [a0, a1, a2] [r0, r1] = some (n, roots) ∧
        ∀ i, n ≤ i → rd roots i = rd [r0, r1] i) ∧
    (∃ n roots, solveCubic S [b0, b1, b2, b3] [r0, r1, r2] = some (n, roots) ∧
        ∀ i, n ≤ i → rd roots i = rd [r0, r1, r2] i) ∧
    (∃ n roots, solveQuartic S [c0, c1, c2, c3, c4] [r0, r1, r2, r3] = some (n, roots) ∧
        ∀ i, n ≤ i → rd roots i = rd [r0, r1, r2, r3] i) := by
  refine ⟨?_, ?_, ?_⟩
  · obtain ⟨n, x0, x1, h, -, f0, f1⟩ := solveQuadric_shape S a0 a1 a2 r0 r1 [] []
    refine ⟨n, _, h, fun i hi => ?_⟩
    match i with
    | 0 => rw [rd_zero, rd_zero, f0 (by omega)]
    | 1 => rw [rd_one, rd_one, f1 (by omega)]
    | i + 2 => simp [rd]
  · obtain ⟨n, x0, x1, x2, h, hn, -, f1, f2⟩ := solveCubic_shape S b0 b1 b2 b3 r0 r1 r2 [] []
    refine ⟨n, _, h, fun i hi => ?_⟩
    match i with
    | 0 => omega
    | 1 => rw [rd_one, rd_one, f1 (by omega)]
    | 2 => rw [rd_two, rd_two, f2 (by omega)]
    | i + 3 => simp [rd]
  · rw [solveQuartic_eval, if_pos hr]
    obtain ⟨n, x0, x1, x2, x3, h, hn, -, f2, f3⟩ :=
      quarticNoAbsoluteTerm_shape S (c3 / c4) (quarticP (c3 / c4) (c2 / c4))
        (quarticQ (c3 / c4) (c2 / c4) (c1 / c4)) r0 r1 r2 r3
    refine ⟨n, _, h, fun i hi => ?_⟩
    match i with
    | 0 => omega
    | 1 => omega
    | 2 => rw [rd_two, rd_two, f2 (by omega)]
    | 3 => rw [rd_three, rd_three, f3 (by omega)]
    | i + 4 => simp [rd]

/-- C7, amended, at `eps = 1/100` on `x² + 1`, `x³ - 1` and `x⁴ - x²`. -/
theorem trailing_slots_unwritten_witness :
    (∃ n roots, solveQuadric (realScalar (1 / 100)) [1, 0, 1] [5, 5] = some (n, roots) ∧
        ∀ i, n ≤ i → rd roots i = rd [5, 5] i) ∧
    (∃ n roots, solveCubic (realScalar (1 / 100)) [-1, 0, 0, 1] [5, 5, 5] = some (n, roots) ∧
        ∀ i, n ≤ i → rd roots i = rd [5, 5, 5] i) ∧
    (∃ n roots, solveQuartic (realScalar (1 / 100)) [0, 0, -1, 0, 1] [5, 5, 5, 5] =
        some (n, roots) ∧ ∀ i, n ≤ i → rd roots i = rd [5, 5, 5, 5] i) :=
  trailing_slots_unwritten (realScalar (1 / 100)) 1 0 1 (-1) 0 0 1 0 0 (-1) 0 1 5 5 5 5
    one_ne_zero one_ne_zero one_ne_zero (by norm_num [isZero_real, quarticR])

/-- C8 (depression identity) fails on the code. For `x⁴ + 4x³`, i.e. `A = 4`,
`B = C = D = 0`, the code computes `p = 6`; at `y = 1` the quartic at `y - A/4` is `0`
while `y⁴ + p y² + q y + r` is `12`. (Line 146 adds `3/8 A²` where the depressed
coefficient is `B - 3/8 A²`.) -/
theorem quartic_depression_sign :
    quarticP (4 / 1 : ℝ) (0 / 1) = 6 ∧
    evalPoly [(0 : ℝ) / 1, 0 / 1, 0 / 1, 4 / 1, 1] (1 - 4 / 1 / 4) = 0 ∧
    evalPoly [quarticR (4 / 1 : ℝ) (0 / 1) (0 / 1) (0 / 1), quarticQ (4 / 1) (0 / 1) (0 / 1),
      quarticP (4 / 1) (0 / 1), 0, 1] 1 = 12 := by
  refine ⟨?_, ?_, ?_⟩ <;> norm_num [quarticP, quarticQ, quarticR, evalPoly]

/-- C9 (branch without absolute term) fails on the code. On `x⁴ - x²`, where `r = 0`,
`p = -1`, `q = 0`, the vector handed to `solveCubic` is `[p, 1, 0, 1] = [-1, 1, 0, 1]`,
not `[q, p, 0, 1] = [0, -1, 0, 1]`; `solveQuartic` returns count 2, while `solveCubic`
on `[q, p, 0, 1]` returns 3, which would give count 4. -/
theorem cubic_factor_coeffs_swapped (eps r0 r1 r2 r3 : ℝ) (h0 : 0 < eps) (h1 : eps ≤ 1 / 100) :
    (realScalar eps).isZero (quarticR (0 / 1) (-1 / 1) (0 / 1) (0 / 1)) = true ∧
    cubicFactorCoeffs (quarticP ((0 : ℝ) / 1) (-1 / 1)) (quarticQ (0 / 1) (-1 / 1) (0 / 1))
      = [-1, 1, 0, 1] ∧
    ([quarticQ ((0 : ℝ) / 1) (-1 / 1) (0 / 1), quarticP (0 / 1) (-1 / 1), 0, 1] : List ℝ)
      = [0, -1, 0, 1] ∧
    (solveQuartic (realScalar eps) [0, 0, -1, 0, 1] [r0, r1, r2, r3]).map Prod.fst = some 2 ∧
    (solveCubic (realScalar eps) [0, -1, 0, 1] [r0, r1, r2, r3]).map Prod.fst = some 3 := by
  have hP : quarticP ((0 : ℝ) / 1) (-1 / 1) = -1 := by norm_num [quarticP]
  have hQ : quarticQ ((0 : ℝ) / 1) (-1 / 1) (0 / 1) = 0 := by norm_num [quarticQ]
  have hR : quarticR ((0 : ℝ) / 1) (-1 / 1) (0 / 1) (0 / 1) = 0 := by norm_num [quarticR]
  have hz : (realScalar eps).isZero 0 = true := by
    simp only [isZero_real]; simpa using h0
  refine ⟨by rw [hR, hz], by rw [hP, hQ]; rfl, by rw [hP, hQ], ?_, ?_⟩
  · rw [solveQuartic_eval, hP, hQ, hR]
    simp only [hz, if_true, quarticNoAbsoluteTerm, cubicFactorCoeffs]
    rw [solveCubic_real_cardano eps (-1) 1 0 1 r0 r1 r2 (1 / 3) (-1 / 3) [] [r3]
      (by norm_num [cubicP]) (by norm_num [cubicQ]) h0 (by norm_num; linarith)]
    simp only [Option.bind_eq_bind, Option.some_bind, wr_one, resubstitute, rd_zero, rd_one,
      wr_zero, zero_add, Option.pure_def, Nat.reduceAdd, Option.map_some']
  · rw [solveCubic_real_trig eps 0 (-1) 0 1 r0 r1 r2 (-1 / 3) 0 [] [r3]
      (by norm_num [cubicP]) (by norm_num [cubicQ]) h0 (by norm_num; linarith)]
    rfl

/-- The failing input of C9 at `eps = 1/100` and a zeroed buffer. -/
theorem cubic_factor_coeffs_swapped_witness :
    (solveQuartic (realScalar (1 / 100)) [0, 0, -1, 0, 1] [0, 0, 0, 0]).map Prod.fst = some 2 ∧
    (solveCubic (realScalar (1 / 100)) [0, -1, 0, 1] [0, 0, 0, 0]).map Prod.fst = some 3 :=
  (cubic_factor_coeffs_swapped (1 / 100) 0 0 0 0 (by norm_num) (by norm_num)).2.2.2

/-- C10: resolvent-root factoring with the sign-of-`q` pairing. If `z` solves the
resolvent cubic `z³ - (p/2) z² - r z + (r p/2 - q²/8) = 0`, with `z² - r ≥ 0` and
`2z - p ≥ 0` near zero only when exactly zero, then the code takes `u = √(z² - r)` and
`v = √(2z - p)`, builds the coefficients `[z - u, s v, 1]` and `[z + u, -s v, 1]` with
`s = -1` for `q < 0` and `s = 1` otherwise, and the two quadratics multiply to
`y⁴ + p y² + q y + r` for every `y`. -/
theorem resolvent_factoring (eps p q r z : ℝ) (heps : 0 < eps)
    (hz : evalPoly (resolventCoeffs p q r) z = 0)
    (hu : 0 ≤ z * z - r) (hv : 0 ≤ 2 * z - p)
    (hu0 : |z * z - r| < eps → z * z - r = 0) (hv0 : |2 * z - p| < eps → 2 * z - p = 0) :
    rootOrZero (realScalar eps) (z * z - r) = some (Real.sqrt (z * z - r)) ∧
    rootOrZero (realScalar eps) (2 * z - p) = some (Real.sqrt (2 * z - p)) ∧
    firstQuadricCoeffs z (Real.sqrt (z * z - r)) (Real.sqrt (2 * z - p)) q =
      [z - Real.sqrt (z * z - r), (if q < 0 then -1 else 1) * Real.sqrt (2 * z - p), 1, 1] ∧
    secondQuadricCoeffs z (Real.sqrt (z * z - r)) (Real.sqrt (2 * z - p)) q =
      [z + Real.sqrt (z * z - r), -((if q < 0 then -1 else 1) * Real.sqrt (2 * z - p)), 1, 1] ∧
    ∀ y : ℝ,
      evalPoly ((firstQuadricCoeffs z (Real.sqrt (z * z - r)) (Real.sqrt (2 * z - p)) q).take 3) y *
        evalPoly ((secondQuadricCoeffs z (Real.sqrt (z * z - r)) (Real.sqrt (2 * z - p)) q).take 3) y
        = evalPoly [r, q, p, 0, 1] y := by
  have key : ∀ x : ℝ, 0 ≤ x → (|x| < eps → x = 0) →
      rootOrZero (realScalar eps) x = some (Real.sqrt x) := by
    intro x hx hx0
    simp only [rootOrZero, isZero_real]
    by_cases h : |x| < eps
    · rw [hx0 h]; simp [heps]
    · have hpos : 0 < x := by
        rcases hx.lt_or_eq with h' | h'
        · exact h'
        · exfalso; apply h; rw [← h']; simpa using heps
      simp [h, hpos, realScalar]
  set u := Real.sqrt (z * z - r) with hudef
  set v := Real.sqrt (2 * z - p) with hvdef
  have huu : u * u = z * z - r := Real.mul_self_sqrt hu
  have hvv : v * v = 2 * z - p := Real.mul_self_sqrt hv
  have hu' : 0 ≤ u := Real.sqrt_nonneg _
  have hv' : 0 ≤ v := Real.sqrt_nonneg _
  simp only [evalPoly, List.foldr, resolventCoeffs] at hz
  have hq2 : (2 * (u * v)) ^ 2 = q ^ 2 := by
    have : (2 * (u * v)) ^ 2 = 4 * (u * u) * (v * v) := by ring
    rw [this, huu, hvv]; linear_combination 8 * hz
  have habs : 2 * (u * v) = |q| := by
    have h1 : |2 * (u * v)| = |q| := (sq_eq_sq_iff_abs_eq_abs _ _).mp hq2
    rwa [abs_of_nonneg (by positivity)] at h1
  refine ⟨key _ hu hu0, key _ hv hv0, ?_, ?_, ?_⟩
  · by_cases hq : q < 0 <;> simp [firstQuadricCoeffs, hq]
  · by_cases hq : q < 0 <;> simp [secondQuadricCoeffs, hq]
  · intro y
    by_cases hq : q < 0
    · have hqa : 2 * (u * v) = -q := by rw [habs, abs_of_neg hq]
      simp only [firstQuadricCoeffs, secondQuadricCoeffs, hq, if_true, List.take, evalPoly,
        List.foldr]
      linear_combination (-y) * hqa - (1 : ℝ) * huu - y ^ 2 * hvv
    · have hqa : 2 * (u * v) = q := by rw [habs, abs_of_nonneg (not_lt.mp hq)]
      simp only [firstQuadricCoeffs, secondQuadricCoeffs, hq, if_false, List.take, evalPoly,
        List.foldr]
      linear_combination y * hqa - (1 : ℝ) * huu - y ^ 2 * hvv

/-- C10 at `p = -10`, `q = 0`, `r = 9` (the depressed `x⁴ - 10x² + 9`), resolvent root
`z = 3`, `eps = 1/100`, evaluated at `y = 2`. -/
theorem resolvent_factoring_witness :
    rootOrZero (realScalar (1 / 100)) (3 * 3 - 9) = some (Real.sqrt (3 * 3 - 9)) ∧
    rootOrZero (realScalar (1 / 100)) (2 * 3 - -10) = some (Real.sqrt (2 * 3 - -10)) ∧
    evalPoly ((firstQuadricCoeffs 3 (Real.sqrt (3 * 3 - 9)) (Real.sqrt (2 * 3 - -10)) 0).take 3) 2 *
        evalPoly ((secondQuadricCoeffs 3 (Real.sqrt (3 * 3 - 9)) (Real.sqrt (2 * 3 - -10)) 0).take 3) 2
        = evalPoly [9, 0, -10, 0, 1] 2 :=
  have h := resolvent_factoring (1 / 100) (-10) 0 9 3 (by norm_num)
    (by norm_num [evalPoly, resolventCoeffs]) (by norm_num) (by norm_num)
    (fun _ => by norm_num)
    (fun h => by rw [abs_of_pos (by norm_num)] at h; norm_num at h)
  ⟨h.1, h.2.1, h.2.2.2.2 2⟩

end atlas
